import Mathlib

/-!
Verification of the archive-job orchestrator in `src/predict.py` (the `Predictor.predict`
method and its helpers `_format_size` and `_get_level_name`).

The embedding is shallow and executable:
* the filesystem at resolution time is a map from paths to `Option Nat` (the size of the
  file at that path, `none` when no file exists there);
* the external 7z engine is an oracle mapping an argument vector to an exit code, the
  captured output streams, and the post-run contents of the output directory;
* Python string comparison (used by `sorted(...)`) is lexicographic comparison of the
  character lists, implemented here as the executable `lexLe`;
* the float arithmetic of `_format_size` and of the ratio computation is embedded exactly:
  the value carried by the formatting loop is represented as the fraction `n / den`
  with `den = 1024 ^ k`, and the compression ratio is a rational number.
Errors raised by the code are represented by the `JobError` type, whose constructors
carry the data printed/raised at the corresponding `raise RuntimeError` site.
-/

namespace Zippah

/-- Lexicographic comparison of character lists by code point, the order Python uses to
compare strings (hence the order of `sorted(...)` over the globbed volume names). -/
def lexLe : List Char → List Char → Bool
  | [], _ => true
  | _ :: _, [] => false
  | a :: as, b :: bs => if a = b then lexLe as bs else decide (a < b)

/-- Insertion of an element into a list sorted by `lexLe` (on the underlying data). -/
def insertSorted (a : String) : List String → List String
  | [] => [a]
  | b :: bs => if lexLe a.data b.data then a :: b :: bs else b :: insertSorted a bs

/-- The sort performed by Python's `sorted(...)` on the globbed volume file names:
a stable sort by the lexicographic string order. -/
def sortStrings : List String → List String
  | [] => []
  | a :: as => insertSorted a (sortStrings as)

/-- A path is absolute when it starts with a slash (POSIX, as in `pathlib`). -/
def isAbsolute (p : String) : Bool := p.data.head? == some '/'

/-- Embedding of `pathlib.Path.absolute()`: an absolute path is kept, a relative path is
resolved against the current working directory. -/
def absolutePath (cwd p : String) : String := if isAbsolute p then p else cwd ++ "/" ++ p

/-- The filesystem visible at option-resolution time: the size of the file at each
path, or `none` when nothing exists there (`Path.exists` / `Path.stat` in the code). -/
abbrev FS := String → Option Nat

/-- The request fields of `Predictor.predict` (`src/predict.py` lines 18-51). -/
structure JobRequest where
  input_files : List String
  compression_level : Nat
  compression_method : String
  archive_format : String
  password : String
  solid_archive : Bool
  volume_size : String
deriving DecidableEq

/-- The `choices` list of the `compression_method` input. -/
def methodChoices : List String := ["LZMA", "LZMA2", "PPMd", "BZip2", "Deflate", "Copy"]

/-- The `choices` list of the `archive_format` input. -/
def formatChoices : List String := ["7z", "zip", "tar"]

/-- The spec's error taxonomy for the `raise RuntimeError` sites of `predict`:
`invalidOption` for a missing input file (line 78), `engineExecutionError` for a
non-zero engine exit (line 217, carrying the exit code and the captured stderr text
printed at lines 204-206), and `missingOutput` for an absent artifact
(lines 230 and 246). -/
inductive JobError where
  | invalidOption (path : String)
  | engineExecutionError (exitCode : Int) (diagnostic : String)
  | missingOutput (expected : String)
deriving DecidableEq

/-- Format/method compatibility substitution (lines 69-71): ZIP does not support
LZMA2, so LZMA is used instead; every other combination is kept unchanged. -/
def resolveMethod (fmt meth : String) : String :=
  if fmt = "zip" ∧ meth = "LZMA2" then "LZMA" else meth

/-- The input-validation loop (lines 73-84): walk the input files in order, fail on the
first path with no file behind it, and otherwise accumulate the absolute paths and the
total input size. -/
def resolveFiles (fs : FS) (cwd : String) : List String → Except JobError (List String × Nat)
  | [] => .ok ([], 0)
  | p :: rest =>
    match fs p with
    | none => .error (.invalidOption p)
    | some sz =>
      match resolveFiles fs cwd rest with
      | .error e => .error e
      | .ok (l, t) => .ok (absolutePath cwd p :: l, sz + t)

/-- The output file name (lines 88-91): `compressed.<format>`, with `.001` appended
when volume splitting is requested. -/
def outputName (fmt vs : String) : String :=
  if vs ≠ "" then "compressed." ++ fmt ++ ".001" else "compressed." ++ fmt

/-- The ZIP method-name translation table (lines 118-125). -/
def zipMethods : List (String × String) :=
  [("LZMA", "-mm=LZMA"), ("LZMA2", "-mm=LZMA"), ("PPMd", "-mm=PPMd"),
   ("BZip2", "-mm=BZip2"), ("Deflate", "-mm=Deflate"), ("Copy", "-mm=Copy")]

/-- The ZIP method flag: `zip_methods.get(compression_method, "-mm=Deflate")`
(line 126). -/
def zipMethodFlag (meth : String) : String :=
  (zipMethods.lookup meth).getD "-mm=Deflate"

/-- The flag section of the engine command (lines 96-148), before the output path and
the input paths are appended. -/
def buildFlags (req : JobRequest) : List String :=
  let meth := resolveMethod req.archive_format req.compression_method
  ["7z", "a", "-t" ++ req.archive_format, "-mx=" ++ toString req.compression_level]
  ++ (if req.archive_format = "7z" then
        ["-m0=" ++ meth] ++ (if req.solid_archive then ["-ms=on"] else ["-ms=off"])
      else if req.archive_format = "zip" then [zipMethodFlag meth]
      else [])
  ++ (if req.password ≠ "" then
        ["-p" ++ req.password] ++ (if req.archive_format = "7z" then ["-mhe=on"] else [])
      else [])
  ++ (if req.volume_size ≠ "" then ["-v" ++ req.volume_size] else [])
  ++ ["-bsp1", "-bt"]

/-- The full argument vector (lines 96-154): flags, then the output path, then the
ordered input paths. -/
def buildCmd (req : JobRequest) (outPath : String) (fileList : List String) : List String :=
  buildFlags req ++ [outPath] ++ fileList

/-- The argument vector built by one job: the output path is the output directory
joined with the resolved output name. -/
def jobCmd (req : JobRequest) (fileList : List String) (outputDir : String) : List String :=
  buildCmd req (outputDir ++ "/" ++ outputName req.archive_format req.volume_size) fileList

/-- What the external engine run yields: the exit code, the captured output streams,
and the contents (name and size of each file) of the output directory after the run. -/
structure EngineResult where
  returncode : Int
  stdoutLines : List String
  stderr : String
  outputDirListing : List (String × Nat)

/-- The external engine as an oracle from the argument vector to its observable result. -/
abbrev Engine := List String → EngineResult

/-- The glob pattern stem of line 228: a name matches `compressed.<format>.*` exactly
when this string is a prefix of it. -/
def volPre (fmt : String) : String := "compressed." ++ fmt ++ "."

/-- The names in the output directory that match the volume glob of line 228. -/
def matchedVolumes (listing : List (String × Nat)) (fmt : String) : List String :=
  (listing.map Prod.fst).filter (fun nm => (volPre fmt).data.isPrefixOf nm.data)

/-- The collected artifact(s): the ordered volume set, the designated returned file,
and the total compressed size summed over the whole set. -/
structure ArtifactSet where
  volumes : List String
  primary : String
  totalCompressed : Nat
deriving DecidableEq

/-- Artifact collection after a successful engine run (lines 226-252).
Split case: glob the volume names, sort them, fail when none matched, return the
first one and the summed size. Non-split case: fail when the output path does not
exist, return it and its size. -/
def collect (listing : List (String × Nat)) (fmt vs outName : String) :
    Except JobError ArtifactSet :=
  if vs ≠ "" then
    let vols := sortStrings (matchedVolumes listing fmt)
    if vols = [] then .error (.missingOutput (volPre fmt ++ "*"))
    else
      .ok { volumes := vols, primary := vols.headD ""
          , totalCompressed := (vols.map (fun nm => (listing.lookup nm).getD 0)).sum }
  else
    match listing.lookup outName with
    | none => .error (.missingOutput outName)
    | some sz => .ok { volumes := [outName], primary := outName, totalCompressed := sz }

/-- The compression-ratio computation of line 255:
`(1 - total_compressed / total_size) * 100 if total_size > 0 else 0`,
embedded with exact rational arithmetic. -/
def ratioPercent (totalSize totalCompressed : Nat) : ℚ :=
  if 0 < totalSize then (1 - (totalCompressed : ℚ) / (totalSize : ℚ)) * 100 else 0

/-- The data returned (and reported) on success: artifact path, input/output byte
totals, and the derived ratio. -/
structure JobResult where
  artifact : String
  totalInput : Nat
  totalOutput : Nat
  ratioValue : ℚ
deriving DecidableEq

/-- The observable outcome of one `predict` call: the returned value or the raised
error, together with whether a child process was spawned (line 165 reached). -/
structure RunOutcome where
  result : Except JobError JobResult
  spawned : Bool

/-- The whole `predict` pipeline (lines 52-267): validate the inputs, build the
command, run the engine, check its exit code, collect the artifact(s), compute the
statistics. `spawned` records whether `subprocess.Popen` was reached. -/
def runJob (fs : FS) (engine : Engine) (cwd outputDir : String) (req : JobRequest) :
    RunOutcome :=
  match resolveFiles fs cwd req.input_files with
  | .error e => ⟨.error e, false⟩
  | .ok (fileList, totalSize) =>
    let er := engine (jobCmd req fileList outputDir)
    if er.returncode ≠ 0 then
      ⟨.error (.engineExecutionError er.returncode er.stderr), true⟩
    else
      match collect er.outputDirListing req.archive_format req.volume_size
          (outputName req.archive_format req.volume_size) with
      | .error e => ⟨.error e, true⟩
      | .ok aset =>
        ⟨.ok { artifact := outputDir ++ "/" ++ aset.primary
             , totalInput := totalSize
             , totalOutput := aset.totalCompressed
             , ratioValue := ratioPercent totalSize aset.totalCompressed }, true⟩

/-- Python's `f"{x:.2f}"` on the exact nonnegative value `num / den` (with `den > 0`):
scale by 100, round half-to-even, and print with two decimal digits. -/
def fmt2Frac (num den : Nat) : String :=
  let t := num * 100
  let q := t / den
  let r := t % den
  let m := if 2 * r < den then q
           else if den < 2 * r then q + 1
           else if q % 2 = 0 then q else q + 1
  toString (m / 100) ++ "." ++
    (if m % 100 < 10 then "0" ++ toString (m % 100) else toString (m % 100))

/-- The unit loop of `_format_size` (lines 271-275). The running float value is
represented exactly as `n / den`; dividing the value by 1024 multiplies `den` by 1024,
and `value < 1024` is `n < 1024 * den`. -/
def sizeLoop (n den : Nat) : List String → String
  | [] => fmt2Frac n den ++ " PB"
  | u :: rest =>
    if n < 1024 * den then fmt2Frac n den ++ " " ++ u else sizeLoop n (den * 1024) rest

/-- `Predictor._format_size` (lines 269-275). -/
def formatSize (n : Nat) : String := sizeLoop n 1 ["B", "KB", "MB", "GB", "TB"]

/-- The units the loop iterates over. -/
def unitsBase : List String := ["B", "KB", "MB", "GB", "TB"]

/-- All units the formatter can display, in display order. -/
def unitsAll : List String := ["B", "KB", "MB", "GB", "TB", "PB"]

/-- The unit selected by the loop of `_format_size`, in isolation. -/
def unitLoop (n den : Nat) : List String → String
  | [] => "PB"
  | u :: rest => if n < 1024 * den then u else unitLoop n (den * 1024) rest

/-- The displayed unit of `_format_size`. -/
def sizeUnit (n : Nat) : String := unitLoop n 1 unitsBase

/-- The value the loop would format, as an exact fraction. -/
def scaleLoop (n den : Nat) : List String → Nat × Nat
  | [] => (n, den)
  | _ :: rest => if n < 1024 * den then (n, den) else scaleLoop n (den * 1024) rest

/-- The position of the selected unit: the number of divisions by 1024 the loop
performs, capped by the fuel (the length of the unit list). -/
def idxLoop (n den : Nat) : Nat → Nat
  | 0 => 0
  | f + 1 => if n < 1024 * den then 0 else idxLoop n (den * 1024) f + 1

/-- The index of the displayed unit inside `unitsAll`. -/
def unitIdx (n : Nat) : Nat := idxLoop n 1 5

/-- The compression-level name table of `_get_level_name` (lines 279-286). -/
def levelNames : List (Nat × String) :=
  [(0, "Store (no compression)"), (1, "Fastest"), (3, "Fast"),
   (5, "Normal"), (7, "Maximum"), (9, "Ultra")]

/-- `Predictor._get_level_name` (lines 277-287): table lookup with the fallback
`f"Level {level}"`. -/
def getLevelName (level : Nat) : String :=
  (levelNames.lookup level).getD ("Level " ++ toString level)

/-- The decimal digit character for `d < 10` (`9` is returned for larger inputs,
which never occur). -/
def digitChar (d : Nat) : Char :=
  match d with
  | 0 => '0' | 1 => '1' | 2 => '2' | 3 => '3' | 4 => '4'
  | 5 => '5' | 6 => '6' | 7 => '7' | 8 => '8' | _ => '9'

/-- The three-digit zero-padded volume index of the spec's volume-naming convention
(`<base>.001`, `<base>.002`, ...). -/
def pad3 (i : Nat) : String :=
  ⟨[digitChar (i / 100), digitChar (i / 10 % 10), digitChar (i % 10)]⟩

/-- A volume file name following the naming convention: the glob stem followed by the
three-digit index. -/
def volName (fmt : String) (i : Nat) : String := volPre fmt ++ pad3 i

/-! ## Concrete fixtures used by the witnesses -/

/-- A demo filesystem holding two regular files. -/
def fsDemo : FS := fun p =>
  if p = "/data/a.txt" then some 1000 else if p = "/data/b.txt" then some 24 else none

/-- A demo request: two existing files, level 5, LZMA2, 7z, a password, solid, no
splitting. -/
def reqDemo : JobRequest :=
  { input_files := ["/data/a.txt", "/data/b.txt"], compression_level := 5
  , compression_method := "LZMA2", archive_format := "7z", password := "pw"
  , solid_archive := true, volume_size := "" }

/-- The demo request retargeted at the zip format. -/
def reqDemoZip : JobRequest := { reqDemo with archive_format := "zip" }

/-- The demo request retargeted at the tar format. -/
def reqDemoTar : JobRequest := { reqDemo with archive_format := "tar" }

/-- A request whose input list is empty. -/
def reqEmpty : JobRequest := { reqDemo with input_files := [], password := "" }

/-- A request listing a path behind which no file exists. -/
def reqMissing : JobRequest := { reqDemo with input_files := ["/data/a.txt", "/data/missing.bin"] }

/-- An engine oracle that succeeds and writes the single expected 7z output file. -/
def engineOk : Engine := fun _ =>
  { returncode := 0, stdoutLines := ["Everything is Ok"], stderr := ""
  , outputDirListing := [("compressed.7z", 512)] }

/-- An engine oracle that fails with exit code 2. -/
def engineFail : Engine := fun _ =>
  { returncode := 2, stdoutLines := [], stderr := "disk full", outputDirListing := [] }

/-- A post-run directory listing with two split volumes (out of order) and an
unrelated file. -/
def listingSplit : List (String × Nat) :=
  [("compressed.7z.002", 200), ("compressed.7z.001", 300), ("notes.txt", 1)]

/-- The artifact set collected from `listingSplit`. -/
def asetSplit : ArtifactSet :=
  { volumes := ["compressed.7z.001", "compressed.7z.002"]
  , primary := "compressed.7z.001", totalCompressed := 500 }

/-! ## Basic facts about the lexicographic order and the sort -/

theorem lexLe_refl : ∀ l, lexLe l l = true
  | [] => rfl
  | a :: as => by simp [lexLe, lexLe_refl as]

theorem lexLe_total : ∀ l m, lexLe l m = true ∨ lexLe m l = true
  | [], _ => .inl rfl
  | _ :: _, [] => .inr rfl
  | a :: as, b :: bs => by
    by_cases h : a = b
    · subst h
      simpa [lexLe] using lexLe_total as bs
    · rcases lt_or_gt_of_ne h with hlt | hgt
      · left
        simp only [lexLe, if_neg h, decide_eq_true_eq]
        exact hlt
      · right
        simp only [lexLe, if_neg (Ne.symm h), decide_eq_true_eq]
        exact hgt

theorem lexLe_trans : ∀ {l m k}, lexLe l m = true → lexLe m k = true → lexLe l k = true
  | [], _, _, _, _ => rfl
  | _ :: _, [], _, h, _ => by simp [lexLe] at h
  | _ :: _, _ :: _, [], _, h => by simp [lexLe] at h
  | a :: as, b :: bs, c :: cs, h1, h2 => by
    by_cases hab : a = b <;> by_cases hbc : b = c
    · subst hab; subst hbc
      simp only [lexLe, if_pos rfl] at h1 h2 ⊢
      exact lexLe_trans h1 h2
    · subst hab
      simpa [lexLe, hbc] using h2
    · subst hbc
      simpa [lexLe, hab] using h1
    · simp only [lexLe, if_neg hab, if_neg hbc, decide_eq_true_eq] at h1 h2
      have hac : a < c := lt_trans h1 h2
      simp [lexLe, ne_of_lt hac, hac]

theorem lexLe_antisymm : ∀ {l m}, lexLe l m = true → lexLe m l = true → l = m
  | [], [], _, _ => rfl
  | [], _ :: _, _, h => by simp [lexLe] at h
  | _ :: _, [], h, _ => by simp [lexLe] at h
  | a :: as, b :: bs, h1, h2 => by
    by_cases hab : a = b
    · subst hab
      simp only [lexLe, if_pos rfl] at h1 h2
      exact congrArg _ (lexLe_antisymm h1 h2)
    · simp only [lexLe, if_neg hab, if_neg (Ne.symm hab), decide_eq_true_eq] at h1 h2
      exact absurd (lt_trans h1 h2) (lt_irrefl a)

theorem lexLe_append_left : ∀ (p x y : List Char), lexLe (p ++ x) (p ++ y) = lexLe x y
  | [], _, _ => rfl
  | a :: p, x, y => by simp [lexLe, lexLe_append_left p x y]

theorem insertSorted_perm (a : String) (l : List String) :
    List.Perm (insertSorted a l) (a :: l) := by
  induction l with
  | nil => simp [insertSorted]
  | cons b bs ih =>
    by_cases h : lexLe a.data b.data
    · simp [insertSorted, h]
    · simp only [insertSorted, if_neg h]
      exact (ih.cons b).trans (List.Perm.swap a b bs)

theorem sortStrings_perm (l : List String) : List.Perm (sortStrings l) l := by
  induction l with
  | nil => exact List.Perm.refl []
  | cons a as ih => exact (insertSorted_perm a (sortStrings as)).trans (ih.cons a)

theorem mem_insertSorted {x a : String} {l : List String} :
    x ∈ insertSorted a l ↔ x = a ∨ x ∈ l := by
  rw [(insertSorted_perm a l).mem_iff]
  simp

theorem insertSorted_pairwise {a : String} {l : List String}
    (h : l.Pairwise (fun x y => lexLe x.data y.data = true)) :
    (insertSorted a l).Pairwise (fun x y => lexLe x.data y.data = true) := by
  induction l with
  | nil => simp [insertSorted]
  | cons b bs ih =>
    rcases h with _ | ⟨hb, hbs⟩
    by_cases hab : lexLe a.data b.data
    · simp only [insertSorted, if_pos hab]
      refine List.Pairwise.cons ?_ (List.Pairwise.cons hb hbs)
      intro x hx
      rcases List.mem_cons.mp hx with rfl | hx
      · exact hab
      · exact lexLe_trans hab (hb x hx)
    · have hba : lexLe b.data a.data = true := by
        rcases lexLe_total a.data b.data with h1 | h1
        · exact absurd h1 hab
        · exact h1
      simp only [insertSorted, if_neg hab]
      refine List.Pairwise.cons ?_ (ih hbs)
      intro x hx
      rcases mem_insertSorted.mp hx with rfl | hx
      · exact hba
      · exact hb x hx

theorem sortStrings_pairwise (l : List String) :
    (sortStrings l).Pairwise (fun x y => lexLe x.data y.data = true) := by
  induction l with
  | nil => simp [sortStrings]
  | cons a as ih => exact insertSorted_pairwise ih

theorem sortStrings_eq_nil_iff {l : List String} : sortStrings l = [] ↔ l = [] := by
  constructor
  · intro h
    have hp := sortStrings_perm l
    rw [h] at hp
    exact hp.symm.eq_nil
  · rintro rfl
    rfl

/-! ## Absoluteness of paths -/

theorem isAbsolute_iff {p : String} : isAbsolute p = true ↔ ∃ t, p.data = '/' :: t := by
  unfold isAbsolute
  cases h : p.data with
  | nil => simp
  | cons c cs =>
    simp only [List.head?_cons, beq_iff_eq, Option.some.injEq, List.cons.injEq]
    constructor
    · intro hc
      exact ⟨cs, hc, rfl⟩
    · rintro ⟨t, ht, _⟩
      exact ht

theorem isAbsolute_append {a : String} (b : String) (h : isAbsolute a = true) :
    isAbsolute (a ++ b) = true := by
  rcases isAbsolute_iff.mp h with ⟨t, ht⟩
  exact isAbsolute_iff.mpr ⟨t ++ b.data, by simp [String.data_append, ht]⟩

theorem fileList_abs {fs : FS} {cwd : String} (hcwd : isAbsolute cwd = true) :
    ∀ {l : List String} {fl : List String} {n : Nat},
      resolveFiles fs cwd l = .ok (fl, n) → ∀ p ∈ fl, isAbsolute p = true := by
  intro l
  induction l with
  | nil =>
    intro fl n h p hp
    simp only [resolveFiles, Except.ok.injEq, Prod.mk.injEq] at h
    rw [← h.1] at hp
    simp at hp
  | cons q rest ih =>
    intro fl n h p hp
    simp only [resolveFiles] at h
    cases hq : fs q with
    | none => rw [hq] at h; simp at h
    | some sz =>
      rw [hq] at h
      cases hr : resolveFiles fs cwd rest with
      | error e => rw [hr] at h; simp at h
      | ok pr =>
        obtain ⟨l2, t⟩ := pr
        rw [hr] at h
        simp only [Except.ok.injEq, Prod.mk.injEq] at h
        rw [← h.1] at hp
        rcases List.mem_cons.mp hp with rfl | hp
        · unfold absolutePath
          by_cases ha : isAbsolute q = true
          · simp [ha]
          · simp only [Bool.not_eq_true] at ha
            simp only [ha, Bool.false_eq_true, if_false]
            exact isAbsolute_append _ (isAbsolute_append _ hcwd)
        · exact ih hr p hp

/-! ## Shape of the built argument vector -/

theorem String_ne_of_data_ne {a b : String} (h : a.data ≠ b.data) : a ≠ b :=
  fun e => h (congrArg String.data e)

theorem not_pre_of_abs {s : String} (hs : isAbsolute s = true) {c : Char} {cs : List Char}
    (hc : ¬ c = '/') : ((c :: cs).isPrefixOf s.data) = false := by
  rcases isAbsolute_iff.mp hs with ⟨t, ht⟩
  rw [ht]
  simp [List.isPrefixOf, hc]

theorem zipMethodFlag_pre (m : String) :
    ("-mm=".data.isPrefixOf (zipMethodFlag m).data) = true := by
  simp only [zipMethodFlag, zipMethods, List.lookup]
  repeat' split
  all_goals simp [List.isPrefixOf]

theorem mem_buildFlags {req : JobRequest} {s : String} :
    s ∈ buildFlags req ↔
      s = "7z" ∨ s = "a" ∨ s = "-t" ++ req.archive_format
      ∨ s = "-mx=" ++ toString req.compression_level
      ∨ (req.archive_format = "7z" ∧
          s = "-m0=" ++ resolveMethod req.archive_format req.compression_method)
      ∨ (req.archive_format = "7z" ∧ req.solid_archive = true ∧ s = "-ms=on")
      ∨ (req.archive_format = "7z" ∧ req.solid_archive = false ∧ s = "-ms=off")
      ∨ (req.archive_format ≠ "7z" ∧ req.archive_format = "zip" ∧
          s = zipMethodFlag (resolveMethod req.archive_format req.compression_method))
      ∨ (req.password ≠ "" ∧ s = "-p" ++ req.password)
      ∨ (req.password ≠ "" ∧ req.archive_format = "7z" ∧ s = "-mhe=on")
      ∨ (req.volume_size ≠ "" ∧ s = "-v" ++ req.volume_size)
      ∨ s = "-bsp1" ∨ s = "-bt" := by
  unfold buildFlags
  by_cases h7 : req.archive_format = "7z" <;>
    by_cases hz : req.archive_format = "zip" <;>
    by_cases hpw : req.password = "" <;>
    by_cases hvs : req.volume_size = "" <;>
    by_cases hs : req.solid_archive = true <;>
    simp_all

theorem mem_buildCmd {req : JobRequest} {outPath s : String} {fileList : List String} :
    s ∈ buildCmd req outPath fileList ↔
      s ∈ buildFlags req ∨ s = outPath ∨ s ∈ fileList := by
  simp [buildCmd]

theorem mem_jobCmd_cases {fs : FS} {cwd outputDir : String} {req : JobRequest}
    {fileList : List String} {totalSize : Nat} {s : String}
    (hcwd : isAbsolute cwd = true) (hdir : isAbsolute outputDir = true)
    (hres : resolveFiles fs cwd req.input_files = .ok (fileList, totalSize))
    (hmem : s ∈ jobCmd req fileList outputDir) :
    s ∈ buildFlags req ∨ isAbsolute s = true := by
  rcases mem_buildCmd.mp hmem with hf | hout | hfl
  · exact .inl hf
  · right
    rw [hout]
    exact isAbsolute_append _ (isAbsolute_append _ hdir)
  · right
    exact fileList_abs hcwd hres s hfl

theorem zipMethodFlag_cases (m : String) :
    zipMethodFlag m = "-mm=LZMA" ∨ zipMethodFlag m = "-mm=PPMd" ∨ zipMethodFlag m = "-mm=BZip2"
    ∨ zipMethodFlag m = "-mm=Deflate" ∨ zipMethodFlag m = "-mm=Copy" := by
  simp only [zipMethodFlag, zipMethods, List.lookup]
  repeat' split
  all_goals simp

theorem zipMethodFlag_mx (m : String) :
    ¬ (['-', 'm', 'x', '='] <+: (zipMethodFlag m).data) := by
  rcases zipMethodFlag_cases m with h | h | h | h | h <;> rw [h] <;> decide

theorem countP_singleton {p : String → Bool} {a : String} :
    List.countP p [a] = if p a then 1 else 0 := by
  simp [List.countP_cons]

/-- The level flag occurs exactly once in the flag section, for every request. -/
theorem countP_buildFlags_mx (req : JobRequest) :
    (buildFlags req).countP (fun s => "-mx=".data.isPrefixOf s.data) = 1 := by
  unfold buildFlags
  by_cases h7 : req.archive_format = "7z" <;>
    by_cases hz : req.archive_format = "zip" <;>
    by_cases hpw : req.password = "" <;>
    by_cases hvs : req.volume_size = "" <;>
    by_cases hs : req.solid_archive = true <;>
    simp_all [List.countP_cons, List.countP_append, zipMethodFlag_mx,
      String.data_append, List.isPrefixOf]

/-- Claim C4: the reported compression ratio is `(1 - out/in) * 100` for positive
input totals, is `0` for a zero input total (no division fault), and is negative
(surfaced as-is, not clamped) whenever the output total exceeds the input total. -/
theorem claim_C4 (i o : Nat) :
    (0 < i → ratioPercent i o = (1 - (o : ℚ) / (i : ℚ)) * 100)
    ∧ ratioPercent 0 o = 0
    ∧ (0 < i → i < o → ratioPercent i o < 0) := by
  refine ⟨fun hi => by simp [ratioPercent, hi], by simp [ratioPercent], fun hi hoi => ?_⟩
  simp only [ratioPercent, if_pos hi]
  have hci : (0 : ℚ) < (i : ℚ) := by exact_mod_cast hi
  have h1 : (1 : ℚ) < (o : ℚ) / (i : ℚ) := by
    rw [lt_div_iff₀ hci, one_mul]
    exact_mod_cast hoi
  have h2 : (1 : ℚ) - (o : ℚ) / (i : ℚ) < 0 := by linarith
  exact mul_neg_of_neg_of_pos h2 (by norm_num)

/-- Witness for C4 at a concrete expanding pair (input 2 bytes, output 5 bytes). -/
theorem claim_C4_witness : ratioPercent 2 5 < 0 :=
  (claim_C4 2 5).2.2 (by norm_num) (by norm_num)

/-- A missing input file makes the validation loop fail with the corresponding
error before the rest of the pipeline runs. -/
theorem resolveFiles_error_of_missing (fs : FS) (cwd : String) :
    ∀ {l : List String} {p : String}, p ∈ l → fs p = none →
      ∃ q, resolveFiles fs cwd l = .error (.invalidOption q) ∧ fs q = none := by
  intro l
  induction l with
  | nil => intro p hp; simp at hp
  | cons a rest ih =>
    intro p hp hm
    cases hfa : fs a with
    | none => exact ⟨a, by simp [resolveFiles, hfa], hfa⟩
    | some sz =>
      rcases List.mem_cons.mp hp with rfl | hp
      · rw [hfa] at hm; simp at hm
      · obtain ⟨q, hq, hqn⟩ := ih hp hm
        refine ⟨q, ?_, hqn⟩
        simp [resolveFiles, hfa, hq]

/-- Claim C1 (amended): a listed input path behind which no file exists makes the
job fail with an `invalidOption` error naming a missing path, and no child process
is spawned.  (The original claim also required an empty `input_files` list to be
rejected; the counterexample below shows the code spawns the engine in that case.) -/
theorem claim_C1 (fs : FS) (engine : Engine) (cwd outputDir : String) (req : JobRequest)
    (p : String) (hp : p ∈ req.input_files) (hmiss : fs p = none) :
    (∃ q, (runJob fs engine cwd outputDir req).result = .error (.invalidOption q)
        ∧ fs q = none)
    ∧ (runJob fs engine cwd outputDir req).spawned = false := by
  obtain ⟨q, hq, hqn⟩ := resolveFiles_error_of_missing fs cwd hp hmiss
  refine ⟨⟨q, ?_, hqn⟩, ?_⟩ <;> simp [runJob, hq]

/-- Counterexample to C1 as stated: with an empty `input_files` list the code does
not raise before spawning — the engine subprocess is launched and the job even
succeeds when the engine reports success. -/
theorem claim_C1_counterexample :
    (runJob fsDemo engineOk "/w" "/tmp/out" reqEmpty).spawned = true
    ∧ (runJob fsDemo engineOk "/w" "/tmp/out" reqEmpty).result
        = .ok { artifact := "/tmp/out/compressed.7z", totalInput := 0
              , totalOutput := 512, ratioValue := 0 } :=
  ⟨rfl, rfl⟩

/-- Witness for C1 at a concrete request listing a non-existent file. -/
theorem claim_C1_witness :
    (∃ q, (runJob fsDemo engineOk "/w" "/tmp/out" reqMissing).result
        = .error (.invalidOption q) ∧ fsDemo q = none)
    ∧ (runJob fsDemo engineOk "/w" "/tmp/out" reqMissing).spawned = false :=
  claim_C1 fsDemo engineOk "/w" "/tmp/out" reqMissing "/data/missing.bin"
    (by simp [reqMissing, reqDemo]) rfl

/-- Claim C5: when the engine exits non-zero the job fails with an
`engineExecutionError` carrying that exit code and the captured diagnostic text,
and no job result is produced. -/
theorem claim_C5 (fs : FS) (engine : Engine) (cwd outputDir : String) (req : JobRequest)
    (fileList : List String) (totalSize : Nat)
    (hres : resolveFiles fs cwd req.input_files = .ok (fileList, totalSize))
    (hrc : (engine (jobCmd req fileList outputDir)).returncode ≠ 0) :
    (runJob fs engine cwd outputDir req).result
      = .error (.engineExecutionError (engine (jobCmd req fileList outputDir)).returncode
          (engine (jobCmd req fileList outputDir)).stderr)
    ∧ ∀ r, (runJob fs engine cwd outputDir req).result ≠ .ok r := by
  constructor
  · simp [runJob, hres, hrc]
  · intro r
    simp [runJob, hres, hrc]

/-- Witness for C5: the failing engine oracle (exit code 2) on the demo request. -/
theorem claim_C5_witness :
    (runJob fsDemo engineFail "/w" "/tmp/out" reqDemo).result
      = .error (.engineExecutionError 2 "disk full")
    ∧ ∀ r, (runJob fsDemo engineFail "/w" "/tmp/out" reqDemo).result ≠ .ok r :=
  claim_C5 fsDemo engineFail "/w" "/tmp/out" reqDemo ["/data/a.txt", "/data/b.txt"] 1024
    rfl (by decide)

/-- Claim C7: for every in-range compression level the built argument vector holds
exactly one level flag, that flag carries the requested integer, and the level-name
lookup returns a (non-empty) string for every level in `[0,9]`, including the levels
absent from the name table. -/
theorem claim_C7 (fs : FS) (cwd outputDir : String) (req : JobRequest)
    (fileList : List String) (totalSize : Nat)
    (hcwd : isAbsolute cwd = true) (hdir : isAbsolute outputDir = true)
    (hres : resolveFiles fs cwd req.input_files = .ok (fileList, totalSize))
    (_hlvl : req.compression_level ≤ 9) :
    (jobCmd req fileList outputDir).countP (fun s => "-mx=".data.isPrefixOf s.data) = 1
    ∧ ("-mx=" ++ toString req.compression_level) ∈ jobCmd req fileList outputDir
    ∧ ∀ l, l ≤ 9 → getLevelName l ≠ "" := by
  refine ⟨?_, ?_, by decide⟩
  · show (buildFlags req ++ [_] ++ fileList).countP _ = 1
    rw [List.countP_append, List.countP_append, countP_buildFlags_mx]
    have hout : List.countP (fun s => "-mx=".data.isPrefixOf s.data)
        [outputDir ++ "/" ++ outputName req.archive_format req.volume_size] = 0 := by
      rw [countP_singleton]
      rw [not_pre_of_abs (isAbsolute_append _ (isAbsolute_append _ hdir)) (by decide)]
      rfl
    have hfl : List.countP (fun s => "-mx=".data.isPrefixOf s.data) fileList = 0 := by
      rw [List.countP_eq_zero]
      intro a ha
      rw [not_pre_of_abs (fileList_abs hcwd hres a ha) (by decide)]
      exact Bool.false_ne_true
    rw [hout, hfl]
  · exact mem_buildCmd.mpr (.inl (mem_buildFlags.mpr
      (.inr (.inr (.inr (.inl rfl))))))

/-- Witness for C7 on the demo request (level 5). -/
theorem claim_C7_witness :
    (jobCmd reqDemo ["/data/a.txt", "/data/b.txt"] "/tmp/out").countP
        (fun s => "-mx=".data.isPrefixOf s.data) = 1
    ∧ ("-mx=" ++ toString reqDemo.compression_level)
        ∈ jobCmd reqDemo ["/data/a.txt", "/data/b.txt"] "/tmp/out"
    ∧ ∀ l, l ≤ 9 → getLevelName l ≠ "" :=
  claim_C7 fsDemo "/w" "/tmp/out" reqDemo ["/data/a.txt", "/data/b.txt"] 1024
    (by decide) (by decide) rfl (by decide)

/-- Claim C2: for a zip request with method LZMA2 the resolver substitutes LZMA
(without failing), and no LZMA2 method token — in either the zip spelling or the
7z spelling — ever appears in the built argument vector. -/
theorem claim_C2 (fs : FS) (cwd outputDir : String) (req : JobRequest)
    (fileList : List String) (totalSize : Nat)
    (hcwd : isAbsolute cwd = true) (hdir : isAbsolute outputDir = true)
    (hres : resolveFiles fs cwd req.input_files = .ok (fileList, totalSize))
    (hfmt : req.archive_format = "zip") (hmeth : req.compression_method = "LZMA2") :
    resolveMethod req.archive_format req.compression_method = "LZMA"
    ∧ "-mm=LZMA2" ∉ jobCmd req fileList outputDir
    ∧ "-m0=LZMA2" ∉ jobCmd req fileList outputDir := by
  refine ⟨by rw [hfmt, hmeth]; decide, ?_, ?_⟩ <;> intro hmem <;>
    rcases mem_jobCmd_cases hcwd hdir hres hmem with hf | habs <;>
    first
      | (exact absurd habs (by decide))
      | (rcases mem_buildFlags.mp hf with
          h | h | h | h | ⟨hbad, h⟩ | ⟨hbad, _, h⟩ | ⟨hbad, _, h⟩ | ⟨_, _, h⟩
            | ⟨_, h⟩ | ⟨_, hbad, h⟩ | ⟨_, h⟩ | h | h <;>
        first
          | (exact absurd h (by decide))
          | (rw [hfmt] at hbad; exact absurd hbad (by decide))
          | (rw [hfmt] at h; exact absurd h (by decide))
          | (rw [hfmt, hmeth] at h; exact absurd h (by decide))
          | (exfalso; have hd := congrArg String.data h; simp [String.data_append] at hd))

/-- Witness for C2 on the zip demo request. -/
theorem claim_C2_witness :
    resolveMethod reqDemoZip.archive_format reqDemoZip.compression_method = "LZMA"
    ∧ "-mm=LZMA2" ∉ jobCmd reqDemoZip ["/data/a.txt", "/data/b.txt"] "/tmp/out"
    ∧ "-m0=LZMA2" ∉ jobCmd reqDemoZip ["/data/a.txt", "/data/b.txt"] "/tmp/out" :=
  claim_C2 fsDemo "/w" "/tmp/out" reqDemoZip ["/data/a.txt", "/data/b.txt"] 1024
    (by decide) (by decide) rfl rfl rfl

/-- Claim C3: for a tar request no element of the built argument vector is a
compression-method flag (`-m0=` or `-mm=`) or a solidity flag (`-ms=`), whatever
the requested method and solidity are. -/
theorem claim_C3 (fs : FS) (cwd outputDir : String) (req : JobRequest)
    (fileList : List String) (totalSize : Nat)
    (hcwd : isAbsolute cwd = true) (hdir : isAbsolute outputDir = true)
    (hres : resolveFiles fs cwd req.input_files = .ok (fileList, totalSize))
    (hfmt : req.archive_format = "tar") :
    ∀ s ∈ jobCmd req fileList outputDir,
      ("-m0=".data.isPrefixOf s.data) = false
      ∧ ("-mm=".data.isPrefixOf s.data) = false
      ∧ ("-ms=".data.isPrefixOf s.data) = false := by
  intro s hmem
  rcases mem_jobCmd_cases hcwd hdir hres hmem with hf | habs
  · rcases mem_buildFlags.mp hf with
      h | h | h | h | ⟨hbad, h⟩ | ⟨hbad, _, h⟩ | ⟨hbad, _, h⟩ | ⟨_, hbad, h⟩
        | ⟨_, h⟩ | ⟨_, hbad, h⟩ | ⟨_, h⟩ | h | h <;>
    first
      | (rw [hfmt] at hbad; exact absurd hbad (by decide))
      | (subst h; refine ⟨?_, ?_, ?_⟩ <;> first
          | decide
          | (rw [hfmt]; decide)
          | simp [String.data_append, List.isPrefixOf])
  · exact ⟨not_pre_of_abs habs (by decide), not_pre_of_abs habs (by decide),
      not_pre_of_abs habs (by decide)⟩

/-- Witness for C3 on the tar demo request, at the format-selector element of its
argument vector. -/
theorem claim_C3_witness :
    ("-m0=".data.isPrefixOf ("-ttar" : String).data) = false
    ∧ ("-mm=".data.isPrefixOf ("-ttar" : String).data) = false
    ∧ ("-ms=".data.isPrefixOf ("-ttar" : String).data) = false :=
  claim_C3 fsDemo "/w" "/tmp/out" reqDemoTar ["/data/a.txt", "/data/b.txt"] 1024
    (by decide) (by decide) rfl rfl "-ttar" (by decide)

/-- Claim C8: the password flag carrying the literal password is present in the
argument vector exactly when the password is non-empty, and the header-encryption
flag is present exactly when the password is non-empty and the format is 7z. -/
theorem claim_C8 (fs : FS) (cwd outputDir : String) (req : JobRequest)
    (fileList : List String) (totalSize : Nat)
    (hcwd : isAbsolute cwd = true) (hdir : isAbsolute outputDir = true)
    (hres : resolveFiles fs cwd req.input_files = .ok (fileList, totalSize)) :
    (("-p" ++ req.password) ∈ jobCmd req fileList outputDir ↔ req.password ≠ "")
    ∧ ("-mhe=on" ∈ jobCmd req fileList outputDir
        ↔ (req.password ≠ "" ∧ req.archive_format = "7z")) := by
  constructor
  · constructor
    · intro hmem
      rcases mem_jobCmd_cases hcwd hdir hres hmem with hf | habs
      · rcases mem_buildFlags.mp hf with
          h | h | h | h | ⟨_, h⟩ | ⟨_, _, h⟩ | ⟨_, _, h⟩ | ⟨_, _, h⟩
            | ⟨hp2, h⟩ | ⟨hp2, _, h⟩ | ⟨_, h⟩ | h | h <;>
        first
          | exact hp2
          | (exfalso;
             rcases zipMethodFlag_cases
                 (resolveMethod req.archive_format req.compression_method) with
               hzc | hzc | hzc | hzc | hzc <;>
               rw [hzc] at h <;>
               (have hd := congrArg String.data h; simp [String.data_append] at hd))
          | (exfalso; have hd := congrArg String.data h; simp [String.data_append] at hd)
      · exfalso
        rcases isAbsolute_iff.mp habs with ⟨t, ht⟩
        simp [String.data_append] at ht
    · intro hpw
      exact mem_buildCmd.mpr (.inl (mem_buildFlags.mpr
        (.inr (.inr (.inr (.inr (.inr (.inr (.inr (.inr (.inl ⟨hpw, rfl⟩)))))))))))
  · constructor
    · intro hmem
      rcases mem_jobCmd_cases hcwd hdir hres hmem with hf | habs
      · rcases mem_buildFlags.mp hf with
          h | h | h | h | ⟨_, h⟩ | ⟨_, _, h⟩ | ⟨_, _, h⟩ | ⟨_, _, h⟩
            | ⟨_, h⟩ | ⟨hp2, h7, h⟩ | ⟨_, h⟩ | h | h <;>
        first
          | (exact ⟨hp2, h7⟩)
          | (exact absurd h (by decide))
          | (exfalso;
             rcases zipMethodFlag_cases
                 (resolveMethod req.archive_format req.compression_method) with
               hzc | hzc | hzc | hzc | hzc <;>
               rw [hzc] at h <;> exact absurd h (by decide))
          | (exfalso; have hd := congrArg String.data h; simp [String.data_append] at hd)
      · exact absurd habs (by decide)
    · rintro ⟨hpw, h7⟩
      exact mem_buildCmd.mpr (.inl (mem_buildFlags.mpr
        (.inr (.inr (.inr (.inr (.inr (.inr (.inr (.inr (.inr
          (.inl ⟨hpw, h7, rfl⟩))))))))))))

/-- Witness for C8 on the demo request (7z, password "pw"). -/
theorem claim_C8_witness :
    (("-p" ++ reqDemo.password) ∈ jobCmd reqDemo ["/data/a.txt", "/data/b.txt"] "/tmp/out"
      ↔ reqDemo.password ≠ "")
    ∧ ("-mhe=on" ∈ jobCmd reqDemo ["/data/a.txt", "/data/b.txt"] "/tmp/out"
      ↔ (reqDemo.password ≠ "" ∧ reqDemo.archive_format = "7z")) :=
  claim_C8 fsDemo "/w" "/tmp/out" reqDemo ["/data/a.txt", "/data/b.txt"] 1024
    (by decide) (by decide) rfl

theorem zipMethodFlag_mm (m : String) : ['-', 'm', 'm', '='] <+: (zipMethodFlag m).data := by
  rcases zipMethodFlag_cases m with h | h | h | h | h <;> rw [h] <;> decide

/-- For a zip request the flag section holds exactly one `-mm=` method flag. -/
theorem countP_buildFlags_mm (req : JobRequest) (hfmt : req.archive_format = "zip") :
    (buildFlags req).countP (fun s => "-mm=".data.isPrefixOf s.data) = 1 := by
  unfold buildFlags
  rw [hfmt]
  by_cases hpw : req.password = "" <;> by_cases hvs : req.volume_size = "" <;>
    simp_all [List.countP_cons, List.countP_append, String.data_append,
      List.isPrefixOf, zipMethodFlag_mm]

/-- Claim C10: the zip method-name table is total over the enumerated method set
(the lookup succeeds for each of the six methods, so the fallback-to-Deflate
branch is unreachable for any valid request), and for a zip request exactly one
`-mm=` flag is emitted, namely the translation of the substituted method. -/
theorem claim_C10 (fs : FS) (cwd outputDir : String) (req : JobRequest)
    (fileList : List String) (totalSize : Nat)
    (hcwd : isAbsolute cwd = true) (hdir : isAbsolute outputDir = true)
    (hres : resolveFiles fs cwd req.input_files = .ok (fileList, totalSize))
    (hfmt : req.archive_format = "zip")
    (_hmeth : req.compression_method ∈ methodChoices) :
    (∀ m ∈ methodChoices, (zipMethods.lookup m).isSome = true)
    ∧ (jobCmd req fileList outputDir).countP
        (fun s => "-mm=".data.isPrefixOf s.data) = 1
    ∧ zipMethodFlag (resolveMethod req.archive_format req.compression_method)
        ∈ jobCmd req fileList outputDir := by
  refine ⟨by decide, ?_, ?_⟩
  · show (buildFlags req ++ [_] ++ fileList).countP _ = 1
    rw [List.countP_append, List.countP_append, countP_buildFlags_mm req hfmt]
    have hout : List.countP (fun s => "-mm=".data.isPrefixOf s.data)
        [outputDir ++ "/" ++ outputName req.archive_format req.volume_size] = 0 := by
      rw [countP_singleton]
      rw [not_pre_of_abs (isAbsolute_append _ (isAbsolute_append _ hdir)) (by decide)]
      rfl
    have hfl : List.countP (fun s => "-mm=".data.isPrefixOf s.data) fileList = 0 := by
      rw [List.countP_eq_zero]
      intro a ha
      rw [not_pre_of_abs (fileList_abs hcwd hres a ha) (by decide)]
      exact Bool.false_ne_true
    rw [hout, hfl]
  · exact mem_buildCmd.mpr (.inl (mem_buildFlags.mpr
      (.inr (.inr (.inr (.inr (.inr (.inr (.inr
        (.inl ⟨by rw [hfmt]; decide, hfmt, rfl⟩))))))))))

/-- Witness for C10 on the zip demo request. -/
theorem claim_C10_witness :
    (∀ m ∈ methodChoices, (zipMethods.lookup m).isSome = true)
    ∧ (jobCmd reqDemoZip ["/data/a.txt", "/data/b.txt"] "/tmp/out").countP
        (fun s => "-mm=".data.isPrefixOf s.data) = 1
    ∧ zipMethodFlag (resolveMethod reqDemoZip.archive_format reqDemoZip.compression_method)
        ∈ jobCmd reqDemoZip ["/data/a.txt", "/data/b.txt"] "/tmp/out" :=
  claim_C10 fsDemo "/w" "/tmp/out" reqDemoZip ["/data/a.txt", "/data/b.txt"] 1024
    (by decide) (by decide) rfl rfl (by decide)

/-! ## The size formatter -/

theorem sizeLoop_decomp : ∀ (us : List String) (n den : Nat),
    sizeLoop n den us
      = fmt2Frac (scaleLoop n den us).1 (scaleLoop n den us).2 ++ " " ++ unitLoop n den us
  | [], n, den => by
    apply String.ext
    simp [sizeLoop, scaleLoop, unitLoop, String.data_append]
  | u :: rest, n, den => by
    by_cases h : n < 1024 * den
    · simp [sizeLoop, scaleLoop, unitLoop, h]
    · simp only [sizeLoop, scaleLoop, unitLoop, if_neg h]
      exact sizeLoop_decomp rest n (den * 1024)

theorem unitLoop_getD : ∀ (us : List String) (n den : Nat),
    unitLoop n den us = (us ++ ["PB"]).getD (idxLoop n den us.length) "PB"
  | [], n, den => by simp [unitLoop, idxLoop]
  | u :: rest, n, den => by
    by_cases h : n < 1024 * den
    · simp [unitLoop, idxLoop, h]
    · simp only [unitLoop, idxLoop, if_neg h, List.length_cons, List.cons_append,
        List.getD_cons_succ]
      exact unitLoop_getD rest n (den * 1024)

theorem idxLoop_mono {n m : Nat} (hnm : n ≤ m) : ∀ (f den : Nat),
    idxLoop n den f ≤ idxLoop m den f
  | 0, den => Nat.le_refl 0
  | f + 1, den => by
    by_cases hm : m < 1024 * den
    · have hn : n < 1024 * den := Nat.lt_of_le_of_lt hnm hm
      simp [idxLoop, hm, hn]
    · by_cases hn : n < 1024 * den
      · simp [idxLoop, hn]
      · simp only [idxLoop, if_neg hm, if_neg hn]
        exact Nat.succ_le_succ (idxLoop_mono hnm f (den * 1024))

/-- Claim C9: the size formatter is 1024-based over the unit list B/KB/MB/GB/TB/PB,
every count below 1024 is displayed in B, `1024` renders as "1.00 KB" and `1024²`
as "1.00 MB", and the index of the displayed unit is monotonically non-decreasing
in the byte count. -/
theorem claim_C9 :
    (∀ n : Nat, n < 1024 → formatSize n = fmt2Frac n 1 ++ " B")
    ∧ formatSize 1024 = "1.00 KB"
    ∧ formatSize (1024 * 1024) = "1.00 MB"
    ∧ (∀ n : Nat, formatSize n
        = fmt2Frac (scaleLoop n 1 unitsBase).1 (scaleLoop n 1 unitsBase).2
            ++ " " ++ sizeUnit n)
    ∧ (∀ n : Nat, sizeUnit n = unitsAll.getD (unitIdx n) "PB")
    ∧ (∀ n m : Nat, n ≤ m → unitIdx n ≤ unitIdx m) := by
  refine ⟨?_, by decide, by decide, ?_, ?_, ?_⟩
  · intro n h
    have h1 : n < 1024 * 1 := by omega
    simp only [formatSize, sizeLoop, if_pos h1]
    apply String.ext
    simp [String.data_append]
  · intro n
    exact sizeLoop_decomp unitsBase n 1
  · intro n
    have h := unitLoop_getD unitsBase n 1
    simpa [sizeUnit, unitIdx, unitsAll, unitsBase] using h
  · intro n m h
    exact idxLoop_mono h 5 1

/-- Witness for C9 at concrete byte counts. -/
theorem claim_C9_witness :
    formatSize 512 = fmt2Frac 512 1 ++ " B" ∧ unitIdx 2048 ≤ unitIdx 1048576 :=
  ⟨claim_C9.1 512 (by decide), claim_C9.2.2.2.2.2 2048 1048576 (by decide)⟩

/-! ## The volume-naming convention and artifact collection -/

theorem digitChar_eq_iff : ∀ a < 10, ∀ b < 10, (digitChar a = digitChar b ↔ a = b) := by
  decide

theorem digitChar_lt_iff : ∀ a < 10, ∀ b < 10, (digitChar a < digitChar b ↔ a < b) := by
  decide

theorem pad3_lexLe {i j : Nat} (hi : i < 1000) (hj : j < 1000) :
    (lexLe (pad3 i).data (pad3 j).data = true) ↔ i ≤ j := by
  have d1i : i / 100 < 10 := by omega
  have d2i : i / 10 % 10 < 10 := by omega
  have d3i : i % 10 < 10 := by omega
  have d1j : j / 100 < 10 := by omega
  have d2j : j / 10 % 10 < 10 := by omega
  have d3j : j % 10 < 10 := by omega
  show lexLe [digitChar (i / 100), digitChar (i / 10 % 10), digitChar (i % 10)]
      [digitChar (j / 100), digitChar (j / 10 % 10), digitChar (j % 10)] = true ↔ i ≤ j
  simp only [lexLe]
  split_ifs with e1 e2 e3
  · have h1 := (digitChar_eq_iff _ d1i _ d1j).mp e1
    have h2 := (digitChar_eq_iff _ d2i _ d2j).mp e2
    have h3 := (digitChar_eq_iff _ d3i _ d3j).mp e3
    simp only [true_iff]
    omega
  · have h1 := (digitChar_eq_iff _ d1i _ d1j).mp e1
    have h2 := (digitChar_eq_iff _ d2i _ d2j).mp e2
    have h3 : ¬ i % 10 = j % 10 := fun hc => e3 ((digitChar_eq_iff _ d3i _ d3j).mpr hc)
    rw [decide_eq_true_eq, digitChar_lt_iff _ d3i _ d3j]
    omega
  · have h1 := (digitChar_eq_iff _ d1i _ d1j).mp e1
    have h2 : ¬ i / 10 % 10 = j / 10 % 10 :=
      fun hc => e2 ((digitChar_eq_iff _ d2i _ d2j).mpr hc)
    rw [decide_eq_true_eq, digitChar_lt_iff _ d2i _ d2j]
    omega
  · have h1 : ¬ i / 100 = j / 100 := fun hc => e1 ((digitChar_eq_iff _ d1i _ d1j).mpr hc)
    rw [decide_eq_true_eq, digitChar_lt_iff _ d1i _ d1j]
    omega

theorem volName_le_of_lexLe {fmt : String} {i j : Nat} (hi : i < 1000) (hj : j < 1000)
    (h : lexLe (volName fmt i).data (volName fmt j).data = true) : i ≤ j := by
  rw [volName, volName, String.data_append, String.data_append, lexLe_append_left] at h
  exact (pad3_lexLe hi hj).mp h

/-- Claim C6: after a successful engine run, collection fails with a missing-output
error exactly when the expected artifact is absent (non-split: the output name is
not in the directory; split: no name matches the volume glob); otherwise, in the
split case, the volumes are returned sorted ascending by their embedded index and
the designated primary artifact is the lowest-indexed volume. -/
theorem claim_C6 (listing : List (String × Nat)) (fmt vs outName : String) :
    (vs = "" →
      ((∃ s, collect listing fmt vs outName = .error (.missingOutput s))
        ↔ listing.lookup outName = none))
    ∧ (vs = "" → ∀ sz, listing.lookup outName = some sz →
        collect listing fmt vs outName
          = .ok { volumes := [outName], primary := outName, totalCompressed := sz })
    ∧ (vs ≠ "" →
      ((∃ s, collect listing fmt vs outName = .error (.missingOutput s))
        ↔ matchedVolumes listing fmt = []))
    ∧ (vs ≠ "" →
        (∀ nm ∈ matchedVolumes listing fmt, ∃ i, i < 1000 ∧ nm = volName fmt i) →
        ∀ aset, collect listing fmt vs outName = .ok aset →
          List.Perm aset.volumes (matchedVolumes listing fmt)
          ∧ aset.volumes.Pairwise (fun a b => ∀ i j, i < 1000 → j < 1000 →
              a = volName fmt i → b = volName fmt j → i ≤ j)
          ∧ aset.primary ∈ aset.volumes
          ∧ (∀ i, i < 1000 → aset.primary = volName fmt i →
              ∀ nm ∈ matchedVolumes listing fmt, ∀ j, j < 1000 →
                nm = volName fmt j → i ≤ j)) := by
  refine ⟨?_, ?_, ?_, ?_⟩
  · rintro rfl
    rw [collect, if_neg (by simp)]
    cases hl : listing.lookup outName <;> simp [hl]
  · rintro rfl sz hl
    rw [collect, if_neg (by simp), hl]
  · intro hv
    rw [collect, if_pos hv]
    cases hm : sortStrings (matchedVolumes listing fmt) with
    | nil =>
      exact iff_of_true ⟨volPre fmt ++ "*", by simp⟩ (sortStrings_eq_nil_iff.mp hm)
    | cons a as =>
      refine iff_of_false ?_ ?_
      · rintro ⟨s, hs⟩
        simp at hs
      · intro hr
        rw [sortStrings_eq_nil_iff.mpr hr] at hm
        simp at hm
  · intro hv hconv aset hok
    rw [collect, if_pos hv] at hok
    cases hm : sortStrings (matchedVolumes listing fmt) with
    | nil =>
      rw [hm] at hok
      simp at hok
    | cons first rest =>
      rw [hm] at hok
      simp only [List.cons_ne_self, if_neg (by simp : ¬ first :: rest = []),
        List.headD_cons, Except.ok.injEq] at hok
      have hperm : List.Perm (first :: rest) (matchedVolumes listing fmt) := by
        rw [← hm]
        exact sortStrings_perm _
      have hpair : (first :: rest).Pairwise (fun x y => lexLe x.data y.data = true) := by
        rw [← hm]
        exact sortStrings_pairwise _
      subst hok
      refine ⟨hperm, ?_, List.mem_cons_self _ _, ?_⟩
      · refine hpair.imp ?_
        intro a b hab i j hi hj ha hb
        rw [ha, hb] at hab
        exact volName_le_of_lexLe hi hj hab
      · intro i hi hpi nm hnm j hj hnmj
        have hpi2 : first = volName fmt i := hpi
        have hnmS : nm ∈ first :: rest := hperm.mem_iff.mpr hnm
        rcases List.mem_cons.mp hnmS with rfl | hnmrest
        · have heq : volName fmt i = volName fmt j := hpi2.symm.trans hnmj
          exact volName_le_of_lexLe hi hj (by rw [heq]; exact lexLe_refl _)
        · rcases hpair with _ | ⟨hfirst, _⟩
          have hlex := hfirst nm hnmrest
          rw [hpi2, hnmj] at hlex
          exact volName_le_of_lexLe hi hj hlex

/-- Witness for C6 on the concrete split listing (volumes 002 and 001, plus an
unrelated file). -/
theorem claim_C6_witness :
    List.Perm asetSplit.volumes (matchedVolumes listingSplit "7z")
    ∧ asetSplit.volumes.Pairwise (fun a b => ∀ i j, i < 1000 → j < 1000 →
        a = volName "7z" i → b = volName "7z" j → i ≤ j)
    ∧ asetSplit.primary ∈ asetSplit.volumes
    ∧ (∀ i, i < 1000 → asetSplit.primary = volName "7z" i →
        ∀ nm ∈ matchedVolumes listingSplit "7z", ∀ j, j < 1000 →
          nm = volName "7z" j → i ≤ j) := by
  refine (claim_C6 listingSplit "7z" "1m" "compressed.7z.001").2.2.2
    (by decide) ?_ asetSplit rfl
  intro nm hnm
  have hset : matchedVolumes listingSplit "7z" = ["compressed.7z.002", "compressed.7z.001"] := by
    decide
  rw [hset] at hnm
  rcases List.mem_cons.mp hnm with rfl | hnm2
  · exact ⟨2, by decide, by decide⟩
  rcases List.mem_cons.mp hnm2 with rfl | hnm3
  · exact ⟨1, by decide, by decide⟩
  · simp at hnm3

end Zippah
